import Mathlib

/-!
Verification of the hls-video-s3-proxy worker (src/index.ts).

The TypeScript source is shallowly embedded: strings are Lean `String`s
(manipulated through their `List Char` data), JS numbers that may be NaN are
`Option Int` (`none` = NaN), fallible code returns `Except String`, and the
Cloudflare KV namespace is an explicit association list threaded through the
handlers.  External primitives (the AWS URL signer, network fetches,
HMAC-SHA256, MD5, `Date.prototype.toUTCString`) are abstract function
parameters; everything written in the repository itself is modelled
concretely, including the exact backtracking behaviour of the regular
expressions `SEGMENTS_REGEX` and `M3U8_REGEX` and of JS `String.prototype
.split` / `Array.prototype.join`.
-/

namespace HlsProxy

/-! ### JS string primitives -/

/-- JS `s.split(sep)` for a single-character separator, on char lists.
`"".split(c)` is `[""]`, a trailing separator yields a trailing `""`. -/
def splitCh (sep : Char) : List Char → List (List Char)
  | [] => [[]]
  | c :: rest =>
    if c = sep then [] :: splitCh sep rest
    else
      match splitCh sep rest with
      | [] => [[c]]
      | h :: t => (c :: h) :: t

/-- JS `parts.join(sep)` for a single-character separator. -/
def joinSep (sep : Char) : List (List Char) → List Char
  | [] => []
  | [x] => x
  | x :: y :: t => x ++ sep :: joinSep sep (y :: t)

/-- Does `s` start with `pat`? -/
def startsWithL : List Char → List Char → Bool
  | [], _ => true
  | _ :: _, [] => false
  | p :: ps, c :: cs => p == c && startsWithL ps cs

/-- Does `s` contain `pat` as a contiguous substring? -/
def hasSubL (pat : List Char) : List Char → Bool
  | [] => pat.isEmpty
  | c :: rest => startsWithL pat (c :: rest) || hasSubL pat rest

/-- JS `s.endsWith(suffix)`. -/
def strEndsWith (s suffix : String) : Bool :=
  startsWithL suffix.data.reverse s.data.reverse

/-! ### The segment regular expression

`SEGMENTS_REGEX = /([\w\-_.]+\.(m4s|mp4|mp3|aac|webm))/g` from src/index.ts.
The character class `[\w\-_.]` is ASCII alphanumerics plus `_`, `-`, `.`.
A JS regex match at a position takes the greedy `+` run as long as possible
and backtracks one character at a time until a literal `.` followed by one of
the extensions (tried in source order) is found. -/

/-- The class `[\w\-_.]` of `SEGMENTS_REGEX` / `M3U8_REGEX`. -/
def isWordClass (c : Char) : Bool :=
  c.isAlphanum || c == '_' || c == '-' || c == '.'

/-- Try the extension alternation `(m4s|mp4|mp3|aac|webm)` in source order at
the head of `s`; returns the length of the extension matched. -/
def extAt (s : List Char) : Option Nat :=
  if startsWithL "m4s".data s then some 3
  else if startsWithL "mp4".data s then some 3
  else if startsWithL "mp3".data s then some 3
  else if startsWithL "aac".data s then some 3
  else if startsWithL "webm".data s then some 4
  else none

/-- Backtracking search for the `[\w\-_.]+\.(ext)` split: try the `+` part of
length `n+1` (longest first, JS greedy), requiring a literal `.` and an
extension just after it.  Returns the total match length. -/
def segTry (s : List Char) : Nat → Option Nat
  | 0 => none
  | n + 1 =>
    match s.drop (n + 1) with
    | '.' :: rest =>
      match extAt rest with
      | some e => some ((n + 1) + 1 + e)
      | none => segTry s n
    | _ => segTry s n

/-- Length of the `SEGMENTS_REGEX` match anchored at the head of `s`
(`none` if the regex does not match here). -/
def segMatchAt (s : List Char) : Option Nat :=
  segTry s (s.takeWhile isWordClass).length

/-- First (leftmost) `SEGMENTS_REGEX` match in `s`: JS advances the start
position one character at a time.  This is `line.match(SEGMENTS_REGEX)[0]`. -/
def segFindFirst : List Char → Option (List Char)
  | [] => none
  | c :: t =>
    match segMatchAt (c :: t) with
    | some len => some ((c :: t).take len)
    | none => segFindFirst t

/-- JS `line.replace(SEGMENTS_REGEX, url)` (global flag): every match is
replaced by `url`, the scan resuming after each match (fuelled recursion;
`fuel = s.length` is always enough since matches are non-empty). -/
def segReplaceAll (url : List Char) : Nat → List Char → List Char
  | _, [] => []
  | 0, c :: t => c :: t
  | fuel + 1, c :: t =>
    match segMatchAt (c :: t) with
    | some len => url ++ segReplaceAll url fuel ((c :: t).drop len)
    | none => c :: segReplaceAll url fuel t

/-- `segReplaceAll` with sufficient fuel. -/
def segReplaceAllTop (url s : List Char) : List Char :=
  segReplaceAll url s.length s

/-! ### The nested-manifest regular expression

`M3U8_REGEX = /(.*[\w\-_.]+\.m3u8)/g` and `URL_REGEX = /^https|http?:\/\//i`
from src/index.ts.  In `M3U8_REGEX` the greedy `.*` (which never crosses a
newline) backtracks from the longest prefix until `[\w\-_.]+\.m3u8` matches
right after it.  In `URL_REGEX` the anchor binds only to the first
alternative, so it tests "starts with https, or contains htt:// or http://",
case-insensitively. -/

/-- The `[\w\-_.]+\.m3u8` tail: try the `+` part of length `n` (longest
first), requiring the literal `.m3u8` just after it. -/
def m3u8Tok (s : List Char) : Nat → Option Nat
  | 0 => none
  | n + 1 =>
    if startsWithL ".m3u8".data (s.drop (n + 1)) then some ((n + 1) + 5)
    else m3u8Tok s n

/-- `[\w\-_.]+\.m3u8` anchored at the head of `s`. -/
def m3u8TokAt (s : List Char) : Option Nat :=
  m3u8Tok s (s.takeWhile isWordClass).length

/-- Try `.*`-prefix length `d` (longest first), then the token. -/
def m3u8Try (s : List Char) : Nat → Option Nat
  | 0 => (m3u8TokAt s).map (fun t => t)
  | d + 1 =>
    match m3u8TokAt (s.drop (d + 1)) with
    | some t => some ((d + 1) + t)
    | none => m3u8Try s d

/-- Length of the `M3U8_REGEX` match anchored at the head of `s`. -/
def m3u8MatchAt (s : List Char) : Option Nat :=
  m3u8Try s (s.takeWhile (fun c => !(c == '\n'))).length

/-- JS `m3u8.replace(M3U8_REGEX, cb)` (global): each match is replaced by the
callback's value on it, the scan resuming after the match. -/
def m3u8ReplaceAll (cb : List Char → List Char) : Nat → List Char → List Char
  | _, [] => []
  | 0, c :: t => c :: t
  | fuel + 1, c :: t =>
    match m3u8MatchAt (c :: t) with
    | some len => cb ((c :: t).take len) ++ m3u8ReplaceAll cb fuel ((c :: t).drop len)
    | none => c :: m3u8ReplaceAll cb fuel t

/-- `URL_REGEX.test(s)`: the anchor applies only to the `https` alternative. -/
def urlRegexTest (s : List Char) : Bool :=
  let l := s.map Char.toLower
  startsWithL "https".data l || hasSubL "http://".data l || hasSubL "htt://".data l

/-! ### JS numbers

A JS number that can be NaN is `Option Int` (`none` = NaN).  `parseInt` is
modelled for decimal inputs (optional surrounding whitespace and sign), which
covers every value this codebase feeds it. -/

/-- NaN-aware JS integer. -/
abbrev JsNum := Option Int

/-- Value of the leading decimal digits of `cs`, `none` if there are none. -/
def digitsVal (cs : List Char) : Option Nat :=
  let ds := cs.takeWhile Char.isDigit
  if ds.isEmpty then none
  else some (ds.foldl (fun a c => a * 10 + (c.toNat - 48)) 0)

/-- JS `parseInt(s)` for decimal strings; `none` is NaN. -/
def jsParseInt (s : String) : Option Int :=
  let cs := s.data.dropWhile (fun c => c == ' ' || c == '\t' || c == '\n' || c == '\r')
  match cs with
  | '-' :: rest => (digitsVal rest).map (fun n => -(n : Int))
  | '+' :: rest => (digitsVal rest).map (fun n => (n : Int))
  | _ => (digitsVal cs).map (fun n => (n : Int))

/-! ### Data model (src/index.ts types and the KV collaborator) -/

/-- The `S3Config` record (credentials flattened). -/
structure S3Config where
  region : String
  accessKeyId : String
  secretAccessKey : String
  endpoint : String
  expiration : String
  videoBucket : String
deriving Repr, DecidableEq

/-- A KV entry: the stored string value, the optional `{expiration}` metadata
(absolute Unix seconds) and the `expirationTtl` passed to `put` (kept for the
store's own eviction; `none` models a NaN ttl, which KV would reject). -/
structure KVEntry where
  value : String
  meta : Option Int
  ttl : JsNum
deriving Repr, DecidableEq

/-- The KV namespace, as an association list. -/
structure Store where
  entries : List (String × KVEntry)
deriving Repr, DecidableEq

def Store.get (st : Store) (k : String) : Option KVEntry :=
  (st.entries.find? (fun e => e.1 == k)).map (fun e => e.2)

def Store.put (st : Store) (k : String) (e : KVEntry) : Store :=
  ⟨(k, e) :: st.entries.filter (fun e' => !(e'.1 == k))⟩

def Store.del (st : Store) (k : String) : Store :=
  ⟨st.entries.filter (fun e' => !(e'.1 == k))⟩

/-- Trace of cache operations a handler performed. -/
inductive CacheOp where
  | read (key : String)
  | write (key : String)
  | del (key : String)
deriving Repr, DecidableEq

/-! ### Constants (src/index.ts lines 59-65) -/

def POSTER_CACHE_TTL : Int := 2592000
def EXPIRATION_DEFAULT : Int := 3600
def EXPIRATION_MARGIN : Int := 100

/-! ### Path helpers (src/index.ts) -/

/-- `removeLeadingSlash` (line 299): `path.substring(1)`. -/
def removeLeadingSlash (path : String) : String :=
  String.mk (path.data.drop 1)

/-- `getBasePath` (line 179): drop the last path segment, rejoin, drop the
leading slash.  The request is represented by its URL pathname. -/
def getBasePath (pathname : String) : String :=
  String.mk ((joinSep '/' ((splitCh '/' pathname.data).dropLast)).drop 1)

/-- `extractBucketAndKey` (line 335): if the requested file contains a `/`,
the bucket is the first segment and the key everything after the first `/`;
otherwise the default bucket is used. -/
def extractBucketAndKey (requestedFile defaultBucket : String) : String × String :=
  if requestedFile.data.any (fun c => c == '/') then
    (String.mk (requestedFile.data.takeWhile (fun c => !(c == '/'))),
     String.mk ((requestedFile.data.dropWhile (fun c => !(c == '/'))).drop 1))
  else (defaultBucket, requestedFile)

/-- `getCacheKey` (line 485): `endpoint/bucket/key`. -/
def getCacheKey (endpoint bucket key : String) : String :=
  endpoint ++ "/" ++ bucket ++ "/" ++ key

/-- `validateKey` (line 352) succeeds iff this is true. -/
def validateKeyOk (key : String) : Bool :=
  !(key == "") && strEndsWith key ".m3u8"

/-- The `pathInBucket` computation of `replaceFilesInM3U8` (lines 134-146).
Lines 138-145 compute a conditional value which line 146 then unconditionally
overwrites; the dead conditional is kept here for fidelity to the source. -/
def pathInBucketOf (basePath bucket : String) : String :=
  let dead :=
    if (splitCh '/' basePath.data).headD [] = bucket.data then
      String.mk (joinSep '/' ((splitCh '/' basePath.data).drop 1) ++ ['/'])
    else ""
  let _ := dead
  String.mk (joinSep '/' ((splitCh '/' basePath.data).drop 1) ++ ['/'])

/-- Modelled from the spec (§4.3 step 1), for comparison with
`pathInBucketOf`: "determine `pathInBucket` ... derived by stripping the
manifest's own filename from the request path and, if the first path segment
equals the bucket name, stripping that too"; a path that does not start with
the bucket name keeps its first segment. -/
def pathInBucketSpec (basePath bucket : String) : String :=
  if (splitCh '/' basePath.data).headD [] = bucket.data then
    String.mk (joinSep '/' ((splitCh '/' basePath.data).drop 1) ++ ['/'])
  else
    String.mk (basePath.data ++ ['/'])

/-! ### Manifest rewriting (src/index.ts lines 124-217) -/

/-- The per-line action of `replaceFilesInM3U8`: a line with a
`SEGMENTS_REGEX` match has every match replaced by the signed URL obtained
for `pathInBucket ++ match[0]`; other lines are untouched. -/
def lineTransform (sign : String → String → String) (bucket pathInBucket : String)
    (l : List Char) : List Char :=
  match segFindFirst l with
  | some m => segReplaceAllTop (sign bucket (pathInBucket ++ String.mk m)).data l
  | none => l

/-- `replaceFilesInM3U8` (line 124).  `sign bucket key` stands for the awaited
`getSignedUrlForObject` result; the returned `Nat` counts the signing calls
issued (one per line with a match, matching the `promises` array). -/
def replaceFilesInM3U8 (basePath m3u8 bucket : String)
    (sign : String → String → String) : Except String (String × Nat) :=
  if m3u8 = "" ∨ bucket = "" then .error "No M3U8 file or bucket provided"
  else
    let pathInBucket := pathInBucketOf basePath bucket
    let lines := splitCh '\n' m3u8.data
    let n := (lines.filter (fun l => (segFindFirst l).isSome)).length
    .ok (String.mk (joinSep '\n' (lines.map (lineTransform sign bucket pathInBucket))), n)

/-- `replaceM3u8Urls` (line 194): rewrite every `M3U8_REGEX` match that does
not look like a URL into `host/basePath/match`.  The request is represented
by its origin `host` and its URL `pathname`. -/
def replaceM3u8Urls (host pathname m3u8 : String) : Except String String :=
  if m3u8 = "" then .error "No request or M3U8 file provided"
  else
    let path := getBasePath pathname
    let cb : List Char → List Char := fun m =>
      if urlRegexTest m then m else (host ++ "/" ++ path ++ "/").data ++ m
    .ok (String.mk (m3u8ReplaceAll cb m3u8.data.length m3u8.data))

/-- `getSignedM3u8` (line 229): fetch the manifest (`fetchBody`, `none` for a
missing object or missing body), sign the segments, route nested manifests
back through the proxy.  All internal failures surface as one error. -/
def getSignedM3u8 (fetchBody : String → String → Option String)
    (sign : String → String → String)
    (pathname host bucket key : String) : Except String (String × Nat) :=
  if bucket = "" ∨ key = "" then .error "Invalid bucket or key"
  else
    match fetchBody bucket key with
    | none => .error "Failed to get signed M3U8"
    | some clear =>
      match replaceFilesInM3U8 (getBasePath pathname) clear bucket sign with
      | .error _ => .error "Failed to get signed M3U8"
      | .ok (signed, n) =>
        match replaceM3u8Urls host pathname signed with
        | .error _ => .error "Failed to get signed M3U8"
        | .ok final => .ok (final, n)

/-! ### TTLs and the proof code (src/index.ts lines 91-113, 275-315) -/

/-- `calculateExpirationTtl` (line 309): `expiration ? parseInt(expiration) -
margin : default - margin`.  An undefined or empty (falsy) expiration gives
the default; an unparsable one gives NaN (`none`). -/
def calculateExpirationTtl (expiration : Option String) : JsNum :=
  match expiration with
  | none => some (EXPIRATION_DEFAULT - EXPIRATION_MARGIN)
  | some s =>
    if s = "" then some (EXPIRATION_DEFAULT - EXPIRATION_MARGIN)
    else (jsParseInt s).map (fun n => n - EXPIRATION_MARGIN)

/-- The `expiresIn` lifetime `getSignedUrlForObject` (line 91) uses:
`parseInt(expiration) ? parseInt(expiration) : 3600` (NaN and 0 are falsy). -/
def signedUrlExpiresIn (expiration : String) : Int :=
  match jsParseInt expiration with
  | none => 3600
  | some n => if n = 0 then 3600 else n

/-- `Math.floor(Date.now() / (1000 * 60 * 60 * 24))`. -/
def daysSinceEpoch (now : Int) : Int :=
  now.fdiv 86400000

/-- `isClearCodeValid` (line 275): the supplied code is compared against the
HMAC-SHA256 (abstract parameter `hmac message secret`) of the current
days-since-epoch count for every configured backend's secret. -/
def isClearCodeValid (hmac : String → String → String) (clients : List S3Config)
    (now : Int) (clearCode : Option String) : Bool :=
  let days := daysSinceEpoch now
  clients.any (fun c => clearCode == some (hmac (toString days) c.secretAccessKey))

/-- `addExpirationDateCommentInM3u8` (line 364): splice the comment in as the
second line.  `expUTC` stands for `expirationDate.toUTCString()`. -/
def addExpirationDateCommentInM3u8 (m3u8 expUTC : String) : String :=
  let comment := ("# Expires: " ++ expUTC).data
  let lines := splitCh '\n' m3u8.data
  String.mk (joinSep '\n' (lines.take 1 ++ comment :: lines.drop 1))

/-! ### The manifest handler (src/index.ts lines 393-476) -/

/-- Everything `handleM3U8Request` produces: the HTTP status and body, the
`max-age` value of the `Cache-Control` header and the absolute expiration
used to derive it (both NaN-aware), the cache state after the request, the
trace of cache operations, and the number of URL-signing calls issued. -/
structure M3U8Result where
  status : Nat
  body : String
  maxAge : JsNum
  expDate : JsNum
  cache : Store
  ops : List CacheOp
  signCalls : Nat
deriving Repr, DecidableEq

/-- `handleM3U8Request` (line 393).  `clients` is the module-level
`s3ProxyClients` list consulted by `isClearCodeValid`; `cfg` is the selected
client's configuration; `clearCache` is the `clear-cache` query parameter;
`now` is `Date.now()` in milliseconds (the request is treated as
instantaneous).  `.error` models an exception escaping the handler (thrown by
`validateKey` or the bucket check, both outside the try/catch); the catch
block converts internal failures into a 500 response.  A stored metadata
object whose `expiration` serialized NaN to null is conflated with absent
metadata (KV would reject the accompanying NaN ttl anyway). -/
def handleM3U8Request (cfg : S3Config) (clients : List S3Config)
    (hmac : String → String → String)
    (fetchBody : String → String → Option String)
    (sign : String → String → String)
    (toUTC : JsNum → String)
    (pathname host : String) (clearCache : Option String)
    (now : Int) (cache : Store) : Except String M3U8Result :=
  let requestedM3u := removeLeadingSlash pathname
  let expirationTtl := calculateExpirationTtl (some cfg.expiration)
  let bk := extractBucketAndKey requestedM3u cfg.videoBucket
  let bucket := bk.1
  let key := bk.2
  if ¬ validateKeyOk key then .error "No M3U8 requested or invalid M3U8 file"
  else
    let cacheKey := getCacheKey cfg.endpoint bucket key
    let cleared : Store × List CacheOp :=
      match clearCache with
      | some cc =>
        if cc ≠ "" ∧ isClearCodeValid hmac clients now (some cc) = true then
          (cache.del cacheKey, [CacheOp.del cacheKey])
        else (cache, [])
      | none => (cache, [])
    let cache1 := cleared.1
    let ops1 := cleared.2
    if bucket = "" then .error "Invalid S3 configuration"
    else
      let expDate0 : JsNum := expirationTtl.map (fun t => now + t * 1000)
      let entry? := cache1.get cacheKey
      let ops2 := ops1 ++ [CacheOp.read cacheKey]
      let expDate : JsNum :=
        match entry? with
        | some e =>
          match e.meta with
          | some m => some (m * 1000)
          | none => expDate0
        | none => expDate0
      let value :=
        match entry? with
        | some e => e.value
        | none => ""
      let step : Except String (String × Store × List CacheOp × Nat) :=
        if value = "" then
          match (if requestedM3u = "" then Except.ok ("", 0)
                 else getSignedM3u8 fetchBody sign pathname host bucket key) with
          | .error e => .error e
          | .ok sn =>
            let signed1 := addExpirationDateCommentInM3u8 sn.1 (toUTC expDate)
            let entry : KVEntry :=
              ⟨signed1, expirationTtl.map (fun t => now.fdiv 1000 + t), expirationTtl⟩
            .ok (signed1, cache1.put cacheKey entry, ops2 ++ [CacheOp.write cacheKey], sn.2)
        else .ok (value, cache1, ops2, 0)
      match step with
      | .error _ =>
        .ok { status := 500, body := "An error occurred", maxAge := none, expDate := expDate,
              cache := cache1, ops := ops2, signCalls := 0 }
      | .ok (body, cache2, ops3, nSigns) =>
        if body = "" then
          .ok { status := 500, body := "An error occurred", maxAge := none, expDate := expDate,
                cache := cache2, ops := ops3, signCalls := nSigns }
        else
          .ok { status := 200, body := body,
                maxAge := expDate.map (fun e => (e - now).fdiv 1000), expDate := expDate,
                cache := cache2, ops := ops3, signCalls := nSigns }

/-! ### Full cache flush (src/index.ts lines 493-539) -/

/-- Cursor pagination of the key space: successive pages of `n` keys in
stored order (fuelled; `n` is clamped to at least 1). -/
def chunksGo {α : Type} (n : Nat) : Nat → List α → List (List α)
  | _, [] => []
  | 0, l => [l]
  | fuel + 1, l => l.take n :: chunksGo n fuel (l.drop n)

def chunksOf {α : Type} (n : Nat) (l : List α) : List (List α) :=
  chunksGo (max n 1) l.length l

/-- The accumulation loop of `deleteAllKeys` (lines 498-509): each iteration
executes `keys = _keys.concat()`, which REPLACES the accumulator with a copy
of the current page instead of appending to it. -/
def deleteAllKeysLoop : List (List String) → List String → List String
  | [], keys => keys
  | p :: ps, _ => deleteAllKeysLoop ps p

/-- `deleteAllKeys` (line 493): paginate through the key space, then delete
every collected key.  Because of the `concat()` slip only the final page
survives collection. -/
def deleteAllKeys (pageSize : Nat) (st : Store) : Store :=
  let pages := chunksOf pageSize (st.entries.map (fun e => e.1))
  let keys := deleteAllKeysLoop pages []
  ⟨st.entries.filter (fun e => !(keys.contains e.1))⟩

/-- `handleFlushCacheRequest` (line 526): status, body and resulting store.
`keyParam` is the `key` query parameter. -/
def handleFlushCacheRequest (hmac : String → String → String)
    (clients : List S3Config) (now : Int) (keyParam : Option String)
    (pageSize : Nat) (st : Store) : Nat × String × Store :=
  match keyParam with
  | some cc =>
    if cc ≠ "" ∧ isClearCodeValid hmac clients now (some cc) = true then
      (200, "Cache cleared", deleteAllKeys pageSize st)
    else (400, "Invalid clear code", st)
  | none => (400, "Invalid clear code", st)

/-! ### The poster handler (src/index.ts lines 549-614) -/

structure PosterResult where
  status : Nat
  body : Option (List Nat)
  etag : Option String
  cacheControl : Option String
  cache : Store
  fetches : Nat
deriving Repr, DecidableEq

/-- `handlePosterRequest` (line 549).  `fetchBytes` stands for the backend
object fetch (`none` for a missing object/body), `md5` for the CryptoJS MD5
content hash; `ifNoneMatch` is the `If-None-Match` request header.
`fetches` counts backend object fetches. -/
def handlePosterRequest (cfg : S3Config)
    (fetchBytes : String → String → Option (List Nat))
    (md5 : List Nat → String)
    (pathname : String) (ifNoneMatch : Option String)
    (cache : Store) : Except String PosterResult :=
  let requestePoster := removeLeadingSlash pathname
  let bk := extractBucketAndKey requestePoster cfg.videoBucket
  let bucket := bk.1
  let key := bk.2
  let cacheKey := getCacheKey cfg.endpoint bucket key
  let earlyOut : Option PosterResult :=
    match ifNoneMatch with
    | some inm =>
      if inm ≠ "" then
        match cache.get cacheKey with
        | some e =>
          if e.value ≠ "" then
            if inm = e.value then
              some { status := 304, body := none, etag := some inm, cacheControl := none,
                     cache := cache, fetches := 0 }
            else none
          else none
        | none => none
      else none
    | none => none
  match earlyOut with
  | some r => .ok r
  | none =>
    if bucket = "" then .error "Invalid S3 configuration"
    else
      match fetchBytes bucket key with
      | none =>
        .ok { status := 500, body := none, etag := none, cacheControl := none,
              cache := cache, fetches := 1 }
      | some bs =>
        let etag := md5 bs
        let cache2 := cache.put cacheKey ⟨etag, none, some POSTER_CACHE_TTL⟩
        .ok { status := 200, body := some bs, etag := some etag,
              cacheControl := some ("public, max-age=" ++ toString POSTER_CACHE_TTL ++ ", immutable"),
              cache := cache2, fetches := 1 }

/-! ### Derived helpers used in the theorem statements -/

/-- Bucket selected for a request pathname. -/
def reqBucket (cfg : S3Config) (pathname : String) : String :=
  (extractBucketAndKey (removeLeadingSlash pathname) cfg.videoBucket).1

/-- Object key selected for a request pathname. -/
def reqKey (cfg : S3Config) (pathname : String) : String :=
  (extractBucketAndKey (removeLeadingSlash pathname) cfg.videoBucket).2

/-- Cache key used for a request pathname. -/
def reqCacheKey (cfg : S3Config) (pathname : String) : String :=
  getCacheKey cfg.endpoint (reqBucket cfg pathname) (reqKey cfg pathname)

/-- Absolute expiration used on a cache hit for entry `e`. -/
def hitExpDate (cfg : S3Config) (now : Int) (e : KVEntry) : JsNum :=
  match e.meta with
  | some m => some (m * 1000)
  | none => (calculateExpirationTtl (some cfg.expiration)).map (fun t => now + t * 1000)

/-- Absolute expiration used on a cache miss. -/
def missExpDate (cfg : S3Config) (now : Int) : JsNum :=
  (calculateExpirationTtl (some cfg.expiration)).map (fun t => now + t * 1000)

/-! ### Lemmas about splitting and joining -/

theorem splitCh_cons_sep (sep : Char) (rest : List Char) :
    splitCh sep (sep :: rest) = [] :: splitCh sep rest := by
  conv_lhs => rw [splitCh]
  simp

theorem splitCh_cons_ne (sep c : Char) (rest : List Char) (h : ¬ c = sep)
    (hd : List Char) (tl : List (List Char)) (hsp : splitCh sep rest = hd :: tl) :
    splitCh sep (c :: rest) = (c :: hd) :: tl := by
  conv_lhs => rw [splitCh]
  simp [h, hsp]

theorem splitCh_ne_nil (sep : Char) (s : List Char) : splitCh sep s ≠ [] := by
  cases s with
  | nil => simp [splitCh]
  | cons c rest =>
    by_cases h : c = sep
    · subst h; rw [splitCh_cons_sep]; simp
    · cases hsp : splitCh sep rest with
      | nil =>
        unfold splitCh; simp [h, hsp]
      | cons hd tl =>
        rw [splitCh_cons_ne sep c rest h hd tl hsp]; simp

theorem not_mem_of_mem_splitCh (sep : Char) (s : List Char) :
    ∀ l ∈ splitCh sep s, sep ∉ l := by
  induction s with
  | nil => intro l hl; simp [splitCh] at hl; simp [hl]
  | cons c rest ih =>
    intro l hl
    by_cases h : c = sep
    · subst h
      rw [splitCh_cons_sep] at hl
      rcases List.mem_cons.mp hl with h1 | h1
      · simp [h1]
      · exact ih l h1
    · cases hsp : splitCh sep rest with
      | nil => exact absurd hsp (splitCh_ne_nil sep rest)
      | cons hd tl =>
        rw [splitCh_cons_ne sep c rest h hd tl hsp] at hl
        rcases List.mem_cons.mp hl with h1 | h1
        · subst h1
          intro hmem
          rcases List.mem_cons.mp hmem with h2 | h2
          · exact h h2.symm
          · exact ih hd (by rw [hsp]; exact List.mem_cons_self hd tl) h2
        · exact ih l (by rw [hsp]; exact List.mem_cons_of_mem hd h1)

theorem splitCh_no_sep (sep : Char) (x : List Char) (hx : sep ∉ x) :
    splitCh sep x = [x] := by
  induction x with
  | nil => simp [splitCh]
  | cons c rest ih =>
    have hc : ¬ c = sep := fun h => hx (by simp [h])
    have hrest : sep ∉ rest := fun h => hx (List.mem_cons_of_mem c h)
    exact splitCh_cons_ne sep c rest hc rest [] (ih hrest)

theorem splitCh_append (sep : Char) (x r : List Char) (hx : sep ∉ x) :
    splitCh sep (x ++ sep :: r) = x :: splitCh sep r := by
  induction x with
  | nil => simpa using splitCh_cons_sep sep r
  | cons c rest ih =>
    have hc : ¬ c = sep := fun h => hx (by simp [h])
    have hrest : sep ∉ rest := fun h => hx (List.mem_cons_of_mem c h)
    have := splitCh_cons_ne sep c (rest ++ sep :: r) hc (rest) (splitCh sep r) (ih hrest)
    simpa using this

theorem splitCh_joinSep (sep : Char) (xss : List (List Char)) (hne : xss ≠ [])
    (hmem : ∀ x ∈ xss, sep ∉ x) : splitCh sep (joinSep sep xss) = xss := by
  induction xss with
  | nil => exact absurd rfl hne
  | cons x t ih =>
    cases t with
    | nil =>
      simp only [joinSep]
      exact splitCh_no_sep sep x (hmem x (List.mem_cons_self x []))
    | cons y tt =>
      have hx : sep ∉ x := hmem x (List.mem_cons_self x (y :: tt))
      have : joinSep sep (x :: y :: tt) = x ++ sep :: joinSep sep (y :: tt) := rfl
      rw [this, splitCh_append sep x _ hx,
        ih (by simp) (fun z hz => hmem z (List.mem_cons_of_mem x hz))]

theorem two_le_length_splitCh (sep : Char) (s : List Char) (h : sep ∈ s) :
    2 ≤ (splitCh sep s).length := by
  induction s with
  | nil => simp at h
  | cons c rest ih =>
    unfold splitCh
    by_cases hc : c = sep
    · simp only [hc, if_true, List.length_cons]
      have := splitCh_ne_nil sep rest
      have : 1 ≤ (splitCh sep rest).length := by
        cases hsp : splitCh sep rest with
        | nil => exact absurd hsp (splitCh_ne_nil sep rest)
        | cons a b => simp
      omega
    · have hrest : sep ∈ rest := by
        rcases List.mem_cons.mp h with h1 | h1
        · exact absurd h1.symm hc
        · exact h1
      simp only [hc, if_false]
      rcases hsp : splitCh sep rest with _ | ⟨hd, tl⟩
      · exact absurd hsp (splitCh_ne_nil sep rest)
      · have := ih hrest
        rw [hsp] at this
        simpa using this

theorem mem_joinSep (sep : Char) (xss : List (List Char)) (h : 2 ≤ xss.length) :
    sep ∈ joinSep sep xss := by
  match xss, h with
  | x :: y :: t, _ =>
    have : joinSep sep (x :: y :: t) = x ++ sep :: joinSep sep (y :: t) := rfl
    rw [this]
    exact List.mem_append_right x (List.mem_cons_self sep _)

theorem one_le_length_splitCh (sep : Char) (s : List Char) :
    1 ≤ (splitCh sep s).length := by
  cases hsp : splitCh sep s with
  | nil => exact absurd hsp (splitCh_ne_nil sep s)
  | cons a b => simp

/-! ### Lemmas about the segment rewrite -/

theorem noNl_segReplaceAll (url : List Char) (hurl : '\n' ∉ url) :
    ∀ (fuel : Nat) (s : List Char), '\n' ∉ s → '\n' ∉ segReplaceAll url fuel s := by
  intro fuel
  induction fuel with
  | zero =>
    intro s hs
    cases s with
    | nil => simp [segReplaceAll]
    | cons c t => simpa [segReplaceAll] using hs
  | succ f ih =>
    intro s hs
    cases s with
    | nil => simp [segReplaceAll]
    | cons c t =>
      rw [segReplaceAll]
      cases hm : segMatchAt (c :: t) with
      | some len =>
        intro hmem
        rcases List.mem_append.mp hmem with h1 | h1
        · exact hurl h1
        · exact ih ((c :: t).drop len) (fun hd => hs (List.mem_of_mem_drop hd)) h1
      | none =>
        intro hmem
        rcases List.mem_cons.mp hmem with h1 | h1
        · exact hs (List.mem_cons.mpr (Or.inl h1))
        · exact ih t (fun hd => hs (List.mem_cons_of_mem c hd)) h1

theorem segFindFirst_cons_none (c : Char) (t : List Char)
    (h : segMatchAt (c :: t) = none) : segFindFirst (c :: t) = segFindFirst t := by
  rw [segFindFirst, h]

theorem segReplaceAll_has_url (url : List Char) :
    ∀ (fuel : Nat) (s : List Char) (m : List Char), segFindFirst s = some m →
      s.length ≤ fuel →
      ∃ pre post, segReplaceAll url fuel s = pre ++ url ++ post := by
  intro fuel
  induction fuel with
  | zero =>
    intro s m hm hlen
    have : s = [] := List.eq_nil_of_length_eq_zero (Nat.le_zero.mp hlen)
    subst this
    simp [segFindFirst] at hm
  | succ f ih =>
    intro s m hm hlen
    cases s with
    | nil => simp [segFindFirst] at hm
    | cons c t =>
      rw [segReplaceAll]
      cases hmt : segMatchAt (c :: t) with
      | some len => exact ⟨[], segReplaceAll url f ((c :: t).drop len), rfl⟩
      | none =>
        have hft : segFindFirst t = some m := by
          rw [segFindFirst_cons_none c t hmt] at hm; exact hm
        have hlt : t.length ≤ f := by simpa using hlen
        rcases ih t m hft hlt with ⟨pre, post, hpp⟩
        exact ⟨c :: pre, post, by rw [hpp]; rfl⟩

theorem lineTransform_no_match (sign : String → String → String) (bucket pib : String)
    (l : List Char) (h : segFindFirst l = none) :
    lineTransform sign bucket pib l = l := by
  rw [lineTransform, h]

theorem lineTransform_match (sign : String → String → String) (bucket pib : String)
    (l m : List Char) (h : segFindFirst l = some m) :
    lineTransform sign bucket pib l
      = segReplaceAllTop (sign bucket (pib ++ String.mk m)).data l := by
  rw [lineTransform, h]

theorem noNl_lineTransform (sign : String → String → String) (bucket pib : String)
    (hsign : ∀ b k, '\n' ∉ (sign b k).data) (l : List Char) (hl : '\n' ∉ l) :
    '\n' ∉ lineTransform sign bucket pib l := by
  cases h : segFindFirst l with
  | none => rw [lineTransform_no_match sign bucket pib l h]; exact hl
  | some m =>
    rw [lineTransform_match sign bucket pib l m h]
    exact noNl_segReplaceAll _ (hsign bucket (pib ++ String.mk m)) l.length l hl

theorem lineTransform_has_url (sign : String → String → String) (bucket pib : String)
    (l m : List Char) (h : segFindFirst l = some m) :
    ∃ pre post, lineTransform sign bucket pib l
      = pre ++ (sign bucket (pib ++ String.mk m)).data ++ post := by
  rw [lineTransform_match sign bucket pib l m h]
  exact segReplaceAll_has_url _ l.length l m h (Nat.le_refl _)

/-! ### Lemmas about the expiration comment and the store -/

theorem data_mk (l : List Char) : (String.mk l).data = l := rfl

theorem mk_ne_empty_of_mem (l : List Char) (c : Char) (h : c ∈ l) :
    String.mk l ≠ "" := by
  intro he
  have : l = [] := congrArg String.data he
  rw [this] at h
  simp at h

theorem nl_mem_addExpirationDateCommentInM3u8 (m3u8 expUTC : String) :
    '\n' ∈ (addExpirationDateCommentInM3u8 m3u8 expUTC).data := by
  unfold addExpirationDateCommentInM3u8
  rw [data_mk]
  apply mem_joinSep
  have h1 := one_le_length_splitCh '\n' m3u8.data
  simp only [List.length_append, List.length_cons, List.length_take, List.length_drop]
  omega

theorem addExpirationDateCommentInM3u8_ne_empty (m3u8 expUTC : String) :
    addExpirationDateCommentInM3u8 m3u8 expUTC ≠ "" := by
  intro he
  have h := nl_mem_addExpirationDateCommentInM3u8 m3u8 expUTC
  rw [he] at h
  simp at h

theorem Store.get_put_self (st : Store) (k : String) (e : KVEntry) :
    (st.put k e).get k = some e := by
  simp [Store.get, Store.put, List.find?]

theorem validateKeyOk_ne_empty (k : String) (h : validateKeyOk k = true) : k ≠ "" := by
  intro hk
  subst hk
  simp [validateKeyOk] at h

theorem requested_ne_empty (r d : String)
    (h : validateKeyOk (extractBucketAndKey r d).2 = true) : r ≠ "" := by
  intro hr
  subst hr
  simp [extractBucketAndKey] at h
  exact validateKeyOk_ne_empty "" h rfl

theorem ne_empty_of_mem_data (s : String) (c : Char) (h : c ∈ s.data) : s ≠ "" := by
  intro he
  rw [he] at h
  simp at h

theorem replaceFilesInM3U8_ok (basePath m3u8 bucket : String)
    (sign : String → String → String) (hm : m3u8 ≠ "") (hb : bucket ≠ "") :
    replaceFilesInM3U8 basePath m3u8 bucket sign
      = .ok (String.mk (joinSep '\n' ((splitCh '\n' m3u8.data).map
              (lineTransform sign bucket (pathInBucketOf basePath bucket)))),
             ((splitCh '\n' m3u8.data).filter (fun l => (segFindFirst l).isSome)).length) := by
  unfold replaceFilesInM3U8
  rw [if_neg (by simp [hm, hb])]

theorem replaceM3u8Urls_ok (host pathname s : String) (h : s ≠ "") :
    ∃ out, replaceM3u8Urls host pathname s = .ok out := by
  unfold replaceM3u8Urls
  rw [if_neg h]
  exact ⟨_, rfl⟩

theorem getSignedM3u8_ok (fetchBody : String → String → Option String)
    (sign : String → String → String) (pathname host bucket key clear : String)
    (hb : bucket ≠ "") (hk : key ≠ "") (hf : fetchBody bucket key = some clear)
    (hnl : '\n' ∈ clear.data) :
    ∃ final n, getSignedM3u8 fetchBody sign pathname host bucket key = .ok (final, n) := by
  have hcl : clear ≠ "" := ne_empty_of_mem_data clear '\n' hnl
  have h2 : 2 ≤ (splitCh '\n' clear.data).length := two_le_length_splitCh '\n' clear.data hnl
  have hjoin : '\n' ∈ joinSep '\n' ((splitCh '\n' clear.data).map
      (lineTransform sign bucket (pathInBucketOf (getBasePath pathname) bucket))) :=
    mem_joinSep _ _ (by simpa using h2)
  have hrf := replaceFilesInM3U8_ok (getBasePath pathname) clear bucket sign hcl hb
  have hsne : String.mk (joinSep '\n' ((splitCh '\n' clear.data).map
      (lineTransform sign bucket (pathInBucketOf (getBasePath pathname) bucket)))) ≠ "" :=
    mk_ne_empty_of_mem _ '\n' hjoin
  rcases replaceM3u8Urls_ok host pathname _ hsne with ⟨out, hout⟩
  refine ⟨out,
    ((splitCh '\n' clear.data).filter (fun l => (segFindFirst l).isSome)).length, ?_⟩
  unfold getSignedM3u8
  rw [if_neg (by simp [hb, hk])]
  simp only [hf, hrf, hout]

/-! ### Execution lemmas for the manifest handler -/

theorem handleM3U8Request_hit (cfg : S3Config) (clients : List S3Config)
    (hmac : String → String → String) (fetchBody : String → String → Option String)
    (sign : String → String → String) (toUTC : JsNum → String)
    (pathname host : String) (clearCache : Option String) (now : Int) (cache : Store)
    (e : KVEntry)
    (hk : validateKeyOk (reqKey cfg pathname) = true)
    (hb : reqBucket cfg pathname ≠ "")
    (hclear : ∀ cc, clearCache = some cc →
      cc = "" ∨ isClearCodeValid hmac clients now (some cc) = false)
    (hget : cache.get (reqCacheKey cfg pathname) = some e)
    (hv : e.value ≠ "") :
    handleM3U8Request cfg clients hmac fetchBody sign toUTC pathname host clearCache now cache
      = .ok { status := 200, body := e.value,
              maxAge := (hitExpDate cfg now e).map (fun x => (x - now).fdiv 1000),
              expDate := hitExpDate cfg now e,
              cache := cache, ops := [CacheOp.read (reqCacheKey cfg pathname)],
              signCalls := 0 } := by
  simp only [reqKey, reqBucket, reqCacheKey] at hk hb hget
  cases clearCache with
  | none =>
    simp only [handleM3U8Request, hk, hb, hget, hitExpDate, reqCacheKey, reqBucket, reqKey]
    simp [hv]
  | some cc =>
    have hcc : ¬ (cc ≠ "" ∧ isClearCodeValid hmac clients now (some cc) = true) := by
      rcases hclear cc rfl with h | h
      · intro hx; exact hx.1 h
      · intro hx; rw [h] at hx; exact absurd hx.2 (by simp)
    simp only [handleM3U8Request, hk, hb, hcc, hitExpDate, reqCacheKey, reqBucket, reqKey]
    simp [hget, hv]

theorem handleM3U8Request_miss (cfg : S3Config) (clients : List S3Config)
    (hmac : String → String → String) (fetchBody : String → String → Option String)
    (sign : String → String → String) (toUTC : JsNum → String)
    (pathname host : String) (now : Int) (cache : Store) (clear : String)
    (hk : validateKeyOk (reqKey cfg pathname) = true)
    (hb : reqBucket cfg pathname ≠ "")
    (hget : cache.get (reqCacheKey cfg pathname) = none)
    (hf : fetchBody (reqBucket cfg pathname) (reqKey cfg pathname) = some clear)
    (hnl : '\n' ∈ clear.data) :
    ∃ final n,
      getSignedM3u8 fetchBody sign pathname host (reqBucket cfg pathname) (reqKey cfg pathname)
        = .ok (final, n) ∧
      handleM3U8Request cfg clients hmac fetchBody sign toUTC pathname host none now cache
        = .ok { status := 200,
                body := addExpirationDateCommentInM3u8 final (toUTC (missExpDate cfg now)),
                maxAge := (missExpDate cfg now).map (fun x => (x - now).fdiv 1000),
                expDate := missExpDate cfg now,
                cache := cache.put (reqCacheKey cfg pathname)
                  ⟨addExpirationDateCommentInM3u8 final (toUTC (missExpDate cfg now)),
                   (calculateExpirationTtl (some cfg.expiration)).map (fun t => now.fdiv 1000 + t),
                   calculateExpirationTtl (some cfg.expiration)⟩,
                ops := [CacheOp.read (reqCacheKey cfg pathname),
                        CacheOp.write (reqCacheKey cfg pathname)],
                signCalls := n } := by
  have hkne : reqKey cfg pathname ≠ "" := validateKeyOk_ne_empty _ hk
  have hreq : removeLeadingSlash pathname ≠ "" := by
    have := requested_ne_empty (removeLeadingSlash pathname) cfg.videoBucket
    simp only [reqKey] at hk
    exact this hk
  rcases getSignedM3u8_ok fetchBody sign pathname host (reqBucket cfg pathname)
    (reqKey cfg pathname) clear hb hkne hf hnl with ⟨final, n, hsig⟩
  refine ⟨final, n, hsig, ?_⟩
  have hcom := addExpirationDateCommentInM3u8_ne_empty final (toUTC (missExpDate cfg now))
  simp only [reqKey, reqBucket, reqCacheKey] at hk hb hget hsig hcom ⊢
  simp only [missExpDate] at hcom ⊢
  simp only [handleM3U8Request, hk, hb, hget, hreq, reqCacheKey, reqBucket, reqKey]
  simp [hsig, hcom]

/-! ### Concrete fixtures used in witnesses and counterexamples -/

def cfgW : S3Config := ⟨"r", "ak", "sec", "e", "3600", "vb"⟩

def hmacW : String → String → String := fun m k => m ++ "|" ++ k

def signW : String → String → String := fun _ _ => "URL"

/-- A constant signing stub whose output provably never contains a newline. -/
def signConstW : String → String → String := fun _ _ => "URL"

def fetchW : String → String → Option String := fun b k =>
  if b = "vb" ∧ k = "a/index.m3u8" then some "#EXTM3U\nseg1.m4s\nlow.m3u8\n" else none

def toUTCW : JsNum → String := fun _ => "SOMEDATE"

def md5W : List Nat → String := fun bs => "h" ++ toString bs.length

def fetchBytesW : String → String → Option (List Nat) := fun b k =>
  if b = "vb" ∧ k = "p_poster.jpg" then some [255, 216, 1] else none

/-- A cache holding the manifest entry whose absolute expiration (second 1000)
is already in the past at the times used below. -/
def cacheStaleW : Store := ⟨[("e/vb/a/index.m3u8", ⟨"#EXTM3U", some 1000, some 3500⟩)]⟩

def entryW : KVEntry := ⟨"v", none, none⟩

/-! ### Claim theorems -/

/-- C1: for every manifest with N lines matching the segment-reference
pattern, `replaceFilesInM3U8` succeeds, the output splits into exactly as
many lines, in order, as the input (line i of the output is the rewrite of
line i of the input); a line without a match is returned byte-identical, a
line with a match has the signed URL for its first match substituted into it
(as a substring of the rewritten line), and the number of signing calls is
exactly the number of matching lines. -/
theorem claim1_rewrite_line_structure (basePath m3u8 bucket : String)
    (sign : String → String → String)
    (hm : m3u8 ≠ "") (hb : bucket ≠ "")
    (hsign : ∀ b k, '\n' ∉ (sign b k).data) :
    ∃ out n, replaceFilesInM3U8 basePath m3u8 bucket sign = .ok (out, n) ∧
      splitCh '\n' out.data
        = (splitCh '\n' m3u8.data).map
            (lineTransform sign bucket (pathInBucketOf basePath bucket)) ∧
      (splitCh '\n' out.data).length = (splitCh '\n' m3u8.data).length ∧
      n = ((splitCh '\n' m3u8.data).filter (fun l => (segFindFirst l).isSome)).length ∧
      (∀ l, segFindFirst l = none →
        lineTransform sign bucket (pathInBucketOf basePath bucket) l = l) ∧
      (∀ l m, segFindFirst l = some m →
        ∃ pre post, lineTransform sign bucket (pathInBucketOf basePath bucket) l
          = pre ++ (sign bucket (pathInBucketOf basePath bucket ++ String.mk m)).data ++ post) := by
  have hsplit : splitCh '\n'
      (String.mk (joinSep '\n' ((splitCh '\n' m3u8.data).map
        (lineTransform sign bucket (pathInBucketOf basePath bucket))))).data
      = (splitCh '\n' m3u8.data).map
          (lineTransform sign bucket (pathInBucketOf basePath bucket)) := by
    rw [data_mk]
    apply splitCh_joinSep
    · intro hnil
      exact splitCh_ne_nil '\n' m3u8.data (List.map_eq_nil_iff.mp hnil)
    · intro x hx
      rcases List.mem_map.mp hx with ⟨l, hl, rfl⟩
      exact noNl_lineTransform sign bucket _ hsign l (not_mem_of_mem_splitCh '\n' m3u8.data l hl)
  refine ⟨_, _, replaceFilesInM3U8_ok basePath m3u8 bucket sign hm hb, hsplit, ?_, rfl, ?_, ?_⟩
  · rw [hsplit, List.length_map]
  · exact fun l h => lineTransform_no_match sign bucket _ l h
  · exact fun l m h => lineTransform_has_url sign bucket _ l m h

/-- Witness for C1 at a concrete manifest with one matching line. -/
theorem claim1_rewrite_line_structure_witness :
    ("#EXTM3U\nseg1.m4s\n" : String) ≠ "" ∧ ("vb" : String) ≠ "" ∧
    (∀ b k, '\n' ∉ (signConstW b k).data) ∧
    (∃ out n, replaceFilesInM3U8 "vb/a" "#EXTM3U\nseg1.m4s\n" "vb" signConstW
        = .ok (out, n) ∧
      splitCh '\n' out.data
        = (splitCh '\n' ("#EXTM3U\nseg1.m4s\n" : String).data).map
            (lineTransform signConstW "vb" (pathInBucketOf "vb/a" "vb")) ∧
      (splitCh '\n' out.data).length
        = (splitCh '\n' ("#EXTM3U\nseg1.m4s\n" : String).data).length ∧
      n = ((splitCh '\n' ("#EXTM3U\nseg1.m4s\n" : String).data).filter
            (fun l => (segFindFirst l).isSome)).length ∧
      (∀ l, segFindFirst l = none →
        lineTransform signConstW "vb" (pathInBucketOf "vb/a" "vb") l = l) ∧
      (∀ l m, segFindFirst l = some m →
        ∃ pre post, lineTransform signConstW "vb" (pathInBucketOf "vb/a" "vb") l
          = pre ++ (signConstW "vb" (pathInBucketOf "vb/a" "vb" ++ String.mk m)).data ++ post)) :=
  ⟨by decide, by decide, fun b k => (by decide : '\n' ∉ ("URL" : String).data),
    claim1_rewrite_line_structure "vb/a" "#EXTM3U\nseg1.m4s\n" "vb" signConstW
      (by decide) (by decide) (fun b k => (by decide : '\n' ∉ ("URL" : String).data))⟩

/-- C2: the claim says the first path segment of the base path is stripped
iff it equals the bucket name, but line 146 of src/index.ts strips it
unconditionally (the conditional at lines 138-145 is dead): on base path
"other/video" with bucket "bucketA" the code produces "video/" while the
claimed behaviour (`pathInBucketSpec`) keeps the first segment; on an empty
base path the code produces the spurious prefix "/". -/
theorem claim2_pathInBucket_unconditional_strip :
    pathInBucketOf "other/video" "bucketA" = "video/"
    ∧ pathInBucketSpec "other/video" "bucketA" = "other/video/"
    ∧ pathInBucketOf "other/video" "bucketA" ≠ pathInBucketSpec "other/video" "bucketA"
    ∧ pathInBucketOf "" "bucketA" = "/" := by
  refine ⟨?_, ?_, ?_, ?_⟩ <;> decide

/-- C3, counterexample: for the backend configuration declaring expiration
"50" the computed cache TTL is -50, which is not a positive number, refuting
"in all cases this TTL is a positive number strictly smaller than the
lifetime". -/
theorem claim3_ttl_counterexample :
    calculateExpirationTtl (some "50") = some (-50)
    ∧ signedUrlExpiresIn "50" = 50
    ∧ ¬ (0 : Int) < -50 := by
  refine ⟨?_, ?_, ?_⟩ <;> decide

/-- C3, amended: when the declared expiration parses to an integer greater
than the margin (100), the TTL is that integer minus the margin, positive and
strictly smaller than the signed-URL lifetime; when no expiration is declared
(or it is empty), the TTL is the default 3600 minus the margin, positive and
strictly smaller than the default lifetime 3600.  (A declared value that is
unparsable or not greater than the margin yields NaN or a non-positive TTL,
as the counterexample shows.) -/
theorem claim3_ttl_amended (e : String) (n : Int)
    (hp : jsParseInt e = some n) (hn : EXPIRATION_MARGIN < n) (hne : e ≠ "") :
    calculateExpirationTtl (some e) = some (n - EXPIRATION_MARGIN)
    ∧ 0 < n - EXPIRATION_MARGIN
    ∧ n - EXPIRATION_MARGIN < signedUrlExpiresIn e
    ∧ calculateExpirationTtl none = some (EXPIRATION_DEFAULT - EXPIRATION_MARGIN)
    ∧ (0 : Int) < EXPIRATION_DEFAULT - EXPIRATION_MARGIN
    ∧ EXPIRATION_DEFAULT - EXPIRATION_MARGIN < EXPIRATION_DEFAULT
    ∧ calculateExpirationTtl (some "") = some (EXPIRATION_DEFAULT - EXPIRATION_MARGIN) := by
  have hmarg : EXPIRATION_MARGIN = (100 : Int) := rfl
  have hn0 : n ≠ 0 := by rw [hmarg] at hn; omega
  refine ⟨?_, ?_, ?_, rfl, by decide, by decide, rfl⟩
  · simp [calculateExpirationTtl, hne, hp]
  · rw [hmarg]; rw [hmarg] at hn; omega
  · simp only [signedUrlExpiresIn, hp, hn0, if_false]
    rw [hmarg]; omega

/-- Witness for C3's amended theorem at the configured value "3600". -/
theorem claim3_ttl_amended_witness :
    jsParseInt "3600" = some 3600 ∧ EXPIRATION_MARGIN < (3600 : Int) ∧ ("3600" : String) ≠ ""
    ∧ (calculateExpirationTtl (some "3600") = some (3600 - EXPIRATION_MARGIN)
       ∧ 0 < (3600 : Int) - EXPIRATION_MARGIN
       ∧ (3600 : Int) - EXPIRATION_MARGIN < signedUrlExpiresIn "3600"
       ∧ calculateExpirationTtl none = some (EXPIRATION_DEFAULT - EXPIRATION_MARGIN)
       ∧ (0 : Int) < EXPIRATION_DEFAULT - EXPIRATION_MARGIN
       ∧ EXPIRATION_DEFAULT - EXPIRATION_MARGIN < EXPIRATION_DEFAULT
       ∧ calculateExpirationTtl (some "") = some (EXPIRATION_DEFAULT - EXPIRATION_MARGIN)) :=
  ⟨by decide, by decide, by decide,
    claim3_ttl_amended "3600" 3600 (by decide) (by decide) (by decide)⟩


/-- The response the stale-cache request of the counterexamples evaluates to. -/
def staleHitResultW : M3U8Result :=
  { status := 200, body := "#EXTM3U", maxAge := some (-1000), expDate := some 1000000,
    cache := cacheStaleW, ops := [CacheOp.read "e/vb/a/index.m3u8"], signCalls := 0 }

/-- `Math.floor(a / 1000)` is non-negative exactly when `a` is. -/
theorem fdiv_thousand_nonneg_iff (a : Int) : 0 ≤ a.fdiv 1000 ↔ 0 ≤ a := by
  rw [Int.fdiv_eq_ediv _ (by norm_num)]
  omega

/-- C4, counterexample: a manifest served from a cache entry whose stored
absolute expiration (second 1000) is in the past at request time (millisecond
2000000) carries `max-age = -1000`: the value is not clamped to be
non-negative. -/
theorem claim4_maxAge_counterexample :
    (handleM3U8Request cfgW [cfgW] hmacW fetchW signW toUTCW "/vb/a/index.m3u8" "h" none
        2000000 cacheStaleW).toOption.map (fun r => (r.status, r.maxAge))
      = some (200, some (-1000))
    ∧ ¬ (0 : Int) ≤ -1000 := by
  refine ⟨?_, by decide⟩
  decide

/-- C4, amended: every 200 response of `handleM3U8Request` carries
`max-age = floor((absoluteExpiration - now) / 1000)` with NO clamping; it is
non-negative exactly when the expiration timestamp has not passed, and can be
negative when a stale cache entry is served. -/
theorem claim4_maxAge_amended (cfg : S3Config) (clients : List S3Config)
    (hmac : String → String → String) (fetchBody : String → String → Option String)
    (sign : String → String → String) (toUTC : JsNum → String)
    (pathname host : String) (clearCache : Option String) (now : Int) (cache : Store)
    (r : M3U8Result)
    (h : handleM3U8Request cfg clients hmac fetchBody sign toUTC pathname host clearCache
          now cache = .ok r)
    (h200 : r.status = 200) :
    r.maxAge = r.expDate.map (fun x => (x - now).fdiv 1000)
    ∧ (∀ x, r.expDate = some x →
        ∃ a, r.maxAge = some a ∧ (0 ≤ a ↔ now ≤ x)) := by
  simp only [handleM3U8Request] at h
  repeat' split at h
  any_goals exact (Except.noConfusion h)
  all_goals
    injection h with h2
  all_goals subst h2
  all_goals
    first
      | exact absurd h200 (of_decide_eq_false rfl)
      | (refine ⟨rfl, ?_⟩
         intro x hx
         refine ⟨(x - now).fdiv 1000, ?_, ?_⟩
         · simp only [M3U8Result.expDate] at hx
           simp [hx]
         · rw [fdiv_thousand_nonneg_iff]
           omega)

/-- Witness for C4's amended theorem: the counterexample request carries
`max-age = -1000`, matching the floor formula for its stale expiration. -/
theorem claim4_maxAge_amended_witness :
    ∃ r, handleM3U8Request cfgW [cfgW] hmacW fetchW signW toUTCW "/vb/a/index.m3u8" "h" none
          2000000 cacheStaleW = .ok r
      ∧ r.status = 200
      ∧ (r.maxAge = r.expDate.map (fun x => (x - (2000000 : Int)).fdiv 1000)
         ∧ (∀ x, r.expDate = some x →
             ∃ a, r.maxAge = some a ∧ (0 ≤ a ↔ (2000000 : Int) ≤ x))) := by
  have h : handleM3U8Request cfgW [cfgW] hmacW fetchW signW toUTCW "/vb/a/index.m3u8" "h" none
      2000000 cacheStaleW = .ok staleHitResultW := rfl
  exact ⟨_, h, rfl, claim4_maxAge_amended cfgW [cfgW] hmacW fetchW signW toUTCW
    "/vb/a/index.m3u8" "h" none 2000000 cacheStaleW _ h rfl⟩

/-- C5: `isClearCodeValid` rejects a null code; accepts a code iff it equals
the HMAC of the current days-since-epoch count keyed by some configured
backend's secret; and (under the collision-freeness idealization of HMAC,
phrased pointwise) rejects any code computed for a different day or with a
secret outside the configuration. -/
theorem claim5_isClearCodeValid (hmac : String → String → String)
    (clients : List S3Config) (now : Int) :
    isClearCodeValid hmac clients now none = false
    ∧ (∀ code : String, isClearCodeValid hmac clients now (some code) = true ↔
        ∃ c ∈ clients, code = hmac (toString (daysSinceEpoch now)) c.secretAccessKey)
    ∧ (∀ (d : Int) (s : String),
        (∀ c ∈ clients,
          hmac (toString d) s ≠ hmac (toString (daysSinceEpoch now)) c.secretAccessKey) →
        isClearCodeValid hmac clients now (some (hmac (toString d) s)) = false) := by
  refine ⟨?_, ?_, ?_⟩
  · simp [isClearCodeValid]
  · intro code
    simp [isClearCodeValid, List.any_eq_true]
  · intro d s hne
    simp only [isClearCodeValid, List.any_eq_false]
    intro c hc hbeq
    exact hne c hc (Option.some.inj (eq_of_beq hbeq))

/-- Witness for C5 with one configured backend and an injective stand-in for
HMAC: today's code for the configured secret validates, a null code, a
yesterday's code and a wrong-secret code are rejected. -/
theorem claim5_isClearCodeValid_witness :
    isClearCodeValid hmacW [cfgW] 86400000 none = false
    ∧ isClearCodeValid hmacW [cfgW] 86400000 (some (hmacW "1" "sec")) = true
    ∧ (∀ c ∈ [cfgW], hmacW "0" "sec" ≠ hmacW (toString (daysSinceEpoch 86400000)) c.secretAccessKey)
    ∧ isClearCodeValid hmacW [cfgW] 86400000 (some (hmacW "0" "sec")) = false
    ∧ (∀ c ∈ [cfgW], hmacW "1" "bad" ≠ hmacW (toString (daysSinceEpoch 86400000)) c.secretAccessKey)
    ∧ isClearCodeValid hmacW [cfgW] 86400000 (some (hmacW "1" "bad")) = false := by
  have h := claim5_isClearCodeValid hmacW [cfgW] 86400000
  refine ⟨h.1, ?_, ?_, ?_, ?_, ?_⟩
  · exact (h.2.1 (hmacW "1" "sec")).mpr ⟨cfgW, by simp, by decide⟩
  · intro c hc
    simp only [List.mem_singleton] at hc
    subst hc
    decide
  · exact h.2.2 0 "sec" (fun c hc => by
      simp only [List.mem_singleton] at hc
      subst hc
      decide)
  · intro c hc
    simp only [List.mem_singleton] at hc
    subst hc
    decide
  · exact h.2.2 1 "bad" (fun c hc => by
      simp only [List.mem_singleton] at hc
      subst hc
      decide)



/-- C6: the flush handler validates the proof and paginates, but because
`keys = _keys.concat()` overwrites the accumulator with each page, only the
final page is deleted: with two pages (page size 1) and a valid code the
handler returns 200 "Cache cleared" while key "a", held by the store, is
still present afterwards. -/
theorem claim6_flush_keeps_earlier_pages :
    isClearCodeValid hmacW [cfgW] 0 (some "0|sec") = true
    ∧ (Store.mk [("a", entryW), ("b", entryW)]).get "a" = some entryW
    ∧ handleFlushCacheRequest hmacW [cfgW] 0 (some "0|sec") 1
        ⟨[("a", entryW), ("b", entryW)]⟩
        = (200, "Cache cleared", ⟨[("a", entryW)]⟩)
    ∧ (Store.mk [("a", entryW)]).get "a" = some entryW
    ∧ handleFlushCacheRequest hmacW [cfgW] 0 (some "bad") 1
        ⟨[("a", entryW), ("b", entryW)]⟩
        = (400, "Invalid clear code", ⟨[("a", entryW), ("b", entryW)]⟩) := by
  refine ⟨?_, ?_, ?_, ?_, ?_⟩ <;> decide

/-- C7, counterexample: a manifest request carrying an invalid `clear-cache`
proof is not answered with 400/403 — the proof is silently ignored and the
manifest is served with status 200. -/
theorem claim7_invalid_proof_counterexample :
    isClearCodeValid hmacW [cfgW] 2000000 (some "bad") = false
    ∧ (handleM3U8Request cfgW [cfgW] hmacW fetchW signW toUTCW "/vb/a/index.m3u8" "h"
        (some "bad") 2000000 cacheStaleW).toOption.map (fun r => r.status) = some 200
    ∧ ¬ ((200 : Nat) = 400 ∨ (200 : Nat) = 403) := by
  refine ⟨?_, ?_, ?_⟩ <;> decide

/-- C7, amended: the full-flush endpoint answers a missing or invalid proof
with 400 and the constant body "Invalid clear code" (independent of the
configured secrets, so nothing about them is revealed) and leaves the store
untouched; the manifest handler, however, does not reject an invalid proof:
it behaves exactly as if no proof had been supplied (in particular it
performs no delete and serves the manifest normally). -/
theorem claim7_invalid_proof_amended :
    (∀ (hmac : String → String → String) (clients : List S3Config) (now : Int)
       (pageSize : Nat) (st : Store),
      handleFlushCacheRequest hmac clients now none pageSize st
        = (400, "Invalid clear code", st))
    ∧ (∀ (hmac : String → String → String) (clients : List S3Config) (now : Int)
         (pageSize : Nat) (st : Store) (cc : String),
        cc = "" ∨ isClearCodeValid hmac clients now (some cc) = false →
        handleFlushCacheRequest hmac clients now (some cc) pageSize st
          = (400, "Invalid clear code", st))
    ∧ (∀ (cfg : S3Config) (clients : List S3Config) (hmac : String → String → String)
         (fetchBody : String → String → Option String) (sign : String → String → String)
         (toUTC : JsNum → String) (pathname host cc : String) (now : Int) (cache : Store),
        cc = "" ∨ isClearCodeValid hmac clients now (some cc) = false →
        handleM3U8Request cfg clients hmac fetchBody sign toUTC pathname host (some cc)
            now cache
          = handleM3U8Request cfg clients hmac fetchBody sign toUTC pathname host none
              now cache) := by
  refine ⟨fun _ _ _ _ _ => rfl, ?_, ?_⟩
  · intro hmac clients now pageSize st cc h
    have hcc : ¬ (cc ≠ "" ∧ isClearCodeValid hmac clients now (some cc) = true) := by
      rcases h with h | h
      · exact fun hx => hx.1 h
      · exact fun hx => by rw [h] at hx; exact absurd hx.2 (by simp)
    simp [handleFlushCacheRequest, hcc]
  · intro cfg clients hmac fetchBody sign toUTC pathname host cc now cache h
    have hcc : ¬ (cc ≠ "" ∧ isClearCodeValid hmac clients now (some cc) = true) := by
      rcases h with h | h
      · exact fun hx => hx.1 h
      · exact fun hx => by rw [h] at hx; exact absurd hx.2 (by simp)
    simp only [handleM3U8Request, hcc, if_false]

/-- Witness for C7's amended theorem at a concrete invalid code. -/
theorem claim7_invalid_proof_amended_witness :
    (("bad" : String) = "" ∨ isClearCodeValid hmacW [cfgW] 0 (some "bad") = false)
    ∧ handleFlushCacheRequest hmacW [cfgW] 0 (some "bad") 1 ⟨[("a", entryW)]⟩
        = (400, "Invalid clear code", ⟨[("a", entryW)]⟩)
    ∧ handleM3U8Request cfgW [cfgW] hmacW fetchW signW toUTCW "/vb/a/index.m3u8" "h"
        (some "bad") 2000000 cacheStaleW
      = handleM3U8Request cfgW [cfgW] hmacW fetchW signW toUTCW "/vb/a/index.m3u8" "h"
          none 2000000 cacheStaleW :=
  ⟨Or.inr (by decide),
   claim7_invalid_proof_amended.2.1 hmacW [cfgW] 0 1 ⟨[("a", entryW)]⟩ "bad"
     (Or.inr (by decide)),
   claim7_invalid_proof_amended.2.2 cfgW [cfgW] hmacW fetchW signW toUTCW
     "/vb/a/index.m3u8" "h" "bad" 2000000 cacheStaleW (Or.inr (by decide))⟩

/-- C8: a first request that misses the cache is served with status 200 and
stores its body; a second identical request against the resulting cache state
(at any later time, while the store still holds the entry) is a cache hit
answered with the byte-identical body and performs zero signing calls. -/
theorem claim8_cached_second_request (cfg : S3Config) (clients : List S3Config)
    (hmac : String → String → String) (fetchBody : String → String → Option String)
    (sign : String → String → String) (toUTC : JsNum → String)
    (pathname host : String) (now0 now1 : Int) (cache : Store) (clear : String)
    (hk : validateKeyOk (reqKey cfg pathname) = true)
    (hb : reqBucket cfg pathname ≠ "")
    (hget : cache.get (reqCacheKey cfg pathname) = none)
    (hf : fetchBody (reqBucket cfg pathname) (reqKey cfg pathname) = some clear)
    (hnl : '\n' ∈ clear.data) :
    ∃ r1 r2,
      handleM3U8Request cfg clients hmac fetchBody sign toUTC pathname host none now0 cache
        = .ok r1
      ∧ handleM3U8Request cfg clients hmac fetchBody sign toUTC pathname host none now1
          r1.cache = .ok r2
      ∧ r1.status = 200 ∧ r2.status = 200
      ∧ r2.body = r1.body
      ∧ r2.signCalls = 0 := by
  rcases handleM3U8Request_miss cfg clients hmac fetchBody sign toUTC pathname host now0 cache
    clear hk hb hget hf hnl with ⟨final, n, hsig, hrun⟩
  have hget2 : (cache.put (reqCacheKey cfg pathname)
        ⟨addExpirationDateCommentInM3u8 final (toUTC (missExpDate cfg now0)),
         (calculateExpirationTtl (some cfg.expiration)).map (fun t => now0.fdiv 1000 + t),
         calculateExpirationTtl (some cfg.expiration)⟩).get (reqCacheKey cfg pathname)
      = some ⟨addExpirationDateCommentInM3u8 final (toUTC (missExpDate cfg now0)),
         (calculateExpirationTtl (some cfg.expiration)).map (fun t => now0.fdiv 1000 + t),
         calculateExpirationTtl (some cfg.expiration)⟩ :=
    Store.get_put_self _ _ _
  have hhit := handleM3U8Request_hit cfg clients hmac fetchBody sign toUTC pathname host none
    now1
    (cache.put (reqCacheKey cfg pathname)
      ⟨addExpirationDateCommentInM3u8 final (toUTC (missExpDate cfg now0)),
       (calculateExpirationTtl (some cfg.expiration)).map (fun t => now0.fdiv 1000 + t),
       calculateExpirationTtl (some cfg.expiration)⟩)
    ⟨addExpirationDateCommentInM3u8 final (toUTC (missExpDate cfg now0)),
     (calculateExpirationTtl (some cfg.expiration)).map (fun t => now0.fdiv 1000 + t),
     calculateExpirationTtl (some cfg.expiration)⟩
    hk hb (fun cc h => Option.noConfusion h) hget2
    (addExpirationDateCommentInM3u8_ne_empty _ _)
  exact ⟨_, _, hrun, hhit, rfl, rfl, rfl, rfl⟩

/-- Witness for C8 at a concrete two-request run. -/
theorem claim8_cached_second_request_witness :
    validateKeyOk (reqKey cfgW "/vb/a/index.m3u8") = true
    ∧ reqBucket cfgW "/vb/a/index.m3u8" ≠ ""
    ∧ (Store.mk []).get (reqCacheKey cfgW "/vb/a/index.m3u8") = none
    ∧ fetchW (reqBucket cfgW "/vb/a/index.m3u8") (reqKey cfgW "/vb/a/index.m3u8")
        = some "#EXTM3U\nseg1.m4s\nlow.m3u8\n"
    ∧ '\n' ∈ ("#EXTM3U\nseg1.m4s\nlow.m3u8\n" : String).data
    ∧ (∃ r1 r2,
        handleM3U8Request cfgW [cfgW] hmacW fetchW signW toUTCW "/vb/a/index.m3u8" "h" none
          1000000 ⟨[]⟩ = .ok r1
        ∧ handleM3U8Request cfgW [cfgW] hmacW fetchW signW toUTCW "/vb/a/index.m3u8" "h" none
            2000000 r1.cache = .ok r2
        ∧ r1.status = 200 ∧ r2.status = 200
        ∧ r2.body = r1.body
        ∧ r2.signCalls = 0) :=
  ⟨by decide, by decide, by decide, by decide, by decide,
   claim8_cached_second_request cfgW [cfgW] hmacW fetchW signW toUTCW "/vb/a/index.m3u8" "h"
     1000000 2000000 ⟨[]⟩ "#EXTM3U\nseg1.m4s\nlow.m3u8\n"
     (by decide) (by decide) (by decide) (by decide) (by decide)⟩

/-- C9: with an `If-None-Match` header equal to the stored ETag the poster
handler answers 304 with no body, the stored ETag and no cache-control,
leaving the cache untouched and fetching nothing; with no conditional header
or no stored ETag it fetches the asset, hashes the full byte sequence, caches
the hash under the same key with the 30-day TTL and answers 200 with the body,
that ETag and the immutable cache-control policy. -/
theorem claim9_poster_etag (cfg : S3Config)
    (fetchBytes : String → String → Option (List Nat)) (md5 : List Nat → String)
    (pathname : String) (cache : Store) :
    (∀ inm e, inm ≠ "" → cache.get (reqCacheKey cfg pathname) = some e → e.value = inm →
      handlePosterRequest cfg fetchBytes md5 pathname (some inm) cache
        = .ok { status := 304, body := none, etag := some inm, cacheControl := none,
                cache := cache, fetches := 0 })
    ∧ (∀ (ino : Option String) (bs : List Nat),
        (ino = none ∨ cache.get (reqCacheKey cfg pathname) = none) →
        reqBucket cfg pathname ≠ "" →
        fetchBytes (reqBucket cfg pathname) (reqKey cfg pathname) = some bs →
        handlePosterRequest cfg fetchBytes md5 pathname ino cache
          = .ok { status := 200, body := some bs, etag := some (md5 bs),
                  cacheControl := some ("public, max-age=" ++ toString POSTER_CACHE_TTL
                    ++ ", immutable"),
                  cache := cache.put (reqCacheKey cfg pathname)
                    ⟨md5 bs, none, some POSTER_CACHE_TTL⟩,
                  fetches := 1 }) := by
  constructor
  · intro inm e hinm hget hval
    simp only [reqCacheKey, reqBucket, reqKey] at hget
    have hev : e.value ≠ "" := by rw [hval]; exact hinm
    simp only [handlePosterRequest, hget, hev, hval, hinm]
    simp [hinm]
  · intro ino bs hdis hb hf
    simp only [reqCacheKey, reqBucket, reqKey] at hdis hb hf ⊢
    rcases hdis with rfl | hnone
    · simp only [handlePosterRequest, hb, hf]
      simp
    · cases ino with
      | none =>
        simp only [handlePosterRequest, hb, hf]
        simp
      | some inm =>
        by_cases hinm : inm = ""
        · subst hinm
          simp only [handlePosterRequest, hnone, hb, hf]
          simp
        · simp only [handlePosterRequest, hnone, hinm, hb, hf]
          simp [hinm]

/-- Witness for C9: a conditional request against the stored hash gets a 304
without fetching; a first request against an empty cache gets a 200 with the
hash cached. -/
theorem claim9_poster_etag_witness :
    (("h3" : String) ≠ ""
     ∧ (Store.mk [("e/vb/p_poster.jpg", ⟨"h3", none, some 2592000⟩)]).get
         (reqCacheKey cfgW "/vb/p_poster.jpg")
         = some ⟨"h3", none, some 2592000⟩
     ∧ (⟨"h3", none, some 2592000⟩ : KVEntry).value = "h3"
     ∧ handlePosterRequest cfgW fetchBytesW md5W "/vb/p_poster.jpg" (some "h3")
         ⟨[("e/vb/p_poster.jpg", ⟨"h3", none, some 2592000⟩)]⟩
         = .ok { status := 304, body := none, etag := some "h3", cacheControl := none,
                 cache := ⟨[("e/vb/p_poster.jpg", ⟨"h3", none, some 2592000⟩)]⟩,
                 fetches := 0 })
    ∧ ((Store.mk []).get (reqCacheKey cfgW "/vb/p_poster.jpg") = none
       ∧ reqBucket cfgW "/vb/p_poster.jpg" ≠ ""
       ∧ fetchBytesW (reqBucket cfgW "/vb/p_poster.jpg") (reqKey cfgW "/vb/p_poster.jpg")
           = some [255, 216, 1]
       ∧ handlePosterRequest cfgW fetchBytesW md5W "/vb/p_poster.jpg" (some "h3") ⟨[]⟩
           = .ok { status := 200, body := some [255, 216, 1], etag := some (md5W [255, 216, 1]),
                   cacheControl := some ("public, max-age=" ++ toString POSTER_CACHE_TTL
                     ++ ", immutable"),
                   cache := (Store.mk []).put (reqCacheKey cfgW "/vb/p_poster.jpg")
                     ⟨md5W [255, 216, 1], none, some POSTER_CACHE_TTL⟩,
                   fetches := 1 }) :=
  ⟨⟨by decide, by decide, by decide,
    (claim9_poster_etag cfgW fetchBytesW md5W "/vb/p_poster.jpg"
        ⟨[("e/vb/p_poster.jpg", ⟨"h3", none, some 2592000⟩)]⟩).1
      "h3" ⟨"h3", none, some 2592000⟩ (by decide) (by decide) (by decide)⟩,
   ⟨by decide, by decide, by decide,
    (claim9_poster_etag cfgW fetchBytesW md5W "/vb/p_poster.jpg" ⟨[]⟩).2
      (some "h3") [255, 216, 1] (Or.inr (by decide)) (by decide) (by decide)⟩⟩

/-- C10: on a cache hit with no valid clear-cache proof, the manifest handler
leaves the cache state unchanged, its only cache operation is the single read
of the cache key, and it performs no signing call. -/
theorem claim10_hit_is_read_only (cfg : S3Config) (clients : List S3Config)
    (hmac : String → String → String) (fetchBody : String → String → Option String)
    (sign : String → String → String) (toUTC : JsNum → String)
    (pathname host : String) (clearCache : Option String) (now : Int) (cache : Store)
    (e : KVEntry)
    (hk : validateKeyOk (reqKey cfg pathname) = true)
    (hb : reqBucket cfg pathname ≠ "")
    (hclear : ∀ cc, clearCache = some cc →
      cc = "" ∨ isClearCodeValid hmac clients now (some cc) = false)
    (hget : cache.get (reqCacheKey cfg pathname) = some e)
    (hv : e.value ≠ "") :
    ∃ r, handleM3U8Request cfg clients hmac fetchBody sign toUTC pathname host clearCache
          now cache = .ok r
      ∧ r.cache = cache
      ∧ r.ops = [CacheOp.read (reqCacheKey cfg pathname)]
      ∧ r.signCalls = 0
      ∧ r.status = 200 :=
  ⟨_, handleM3U8Request_hit cfg clients hmac fetchBody sign toUTC pathname host clearCache
      now cache e hk hb hclear hget hv, rfl, rfl, rfl, rfl⟩

/-- Witness for C10: a hit carrying an invalid proof changes nothing and only
reads. -/
theorem claim10_hit_is_read_only_witness :
    validateKeyOk (reqKey cfgW "/vb/a/index.m3u8") = true
    ∧ reqBucket cfgW "/vb/a/index.m3u8" ≠ ""
    ∧ isClearCodeValid hmacW [cfgW] 2000000 (some "bad") = false
    ∧ cacheStaleW.get (reqCacheKey cfgW "/vb/a/index.m3u8")
        = some ⟨"#EXTM3U", some 1000, some 3500⟩
    ∧ (⟨"#EXTM3U", some 1000, some 3500⟩ : KVEntry).value ≠ ""
    ∧ (∃ r, handleM3U8Request cfgW [cfgW] hmacW fetchW signW toUTCW "/vb/a/index.m3u8" "h"
          (some "bad") 2000000 cacheStaleW = .ok r
        ∧ r.cache = cacheStaleW
        ∧ r.ops = [CacheOp.read (reqCacheKey cfgW "/vb/a/index.m3u8")]
        ∧ r.signCalls = 0
        ∧ r.status = 200) := by
  refine ⟨by decide, by decide, by decide, by decide, by decide, ?_⟩
  exact claim10_hit_is_read_only cfgW [cfgW] hmacW fetchW signW toUTCW "/vb/a/index.m3u8" "h"
    (some "bad") 2000000 cacheStaleW ⟨"#EXTM3U", some 1000, some 3500⟩
    (by decide) (by decide)
    (fun cc h => by cases h; exact Or.inr (by decide))
    (by decide) (by decide)


end HlsProxy
